import Mathlib

/-!
Shallow embedding of `circles.py`: a script that synthesizes a dataset of
noisy concentric rings, trains a small MLP classifier on it with minibatch
SGD, evaluates the model over a fixed square mesh at chosen epoch
checkpoints, and renders each checkpoint's probability field as a blend of
a fixed color palette.

Real-valued tensor arithmetic is modelled over `ℚ`.  The transcendental
primitives supplied by the numeric backend (`cos`, `sin` of a full-turn
angle, and `exp` inside the softmax) are abstract function parameters,
constrained only by the algebraic facts the claims need (the Pythagorean
identity, positivity of `exp`).  Randomness sources (`randint`, `randn`,
`rand`, the shuffling permutation of `random_split`) are explicit stream
parameters, so every definition is a pure function of the code's inputs.
-/

namespace Circles

/-! ### Script-level literal configuration (lines 109-136 of `circles.py`) -/

/-- The ring radii of the script: `radii = [1, 2, 3, 4, 5, 6]`. -/
def radii : List ℚ := [1, 2, 3, 4, 5, 6]

/-- `n_cats = len(radii)`. -/
def n_cats : Nat := radii.length

/-- `batch_size = 64`. -/
def batch_size : Nat := 64

/-- `n_epochs = 500`. -/
def n_epochs : Nat := 500

/-- `learning_rate = 0.1`. -/
def learning_rate : ℚ := 1 / 10

/-- `npoints = 101`. -/
def npoints : Nat := 101

/-- `epochs_to_plot = [0, 10, 20, 50, 100, 500]`. -/
def epochs_to_plot : List Nat := [0, 10, 20, 50, 100, 500]

/-! ### Data synthesis (`CircleData.__init__`) -/

/-- One entry of `pt_radii = torch.tensor(radii)[self.cats] + torch.randn(n_dpt) * std`:
the radius selected by the sample's category, perturbed by Gaussian noise
(the noise draw is the stream value `noise`). -/
def ptRadius (rads : List ℚ) (std : ℚ) (cat : Nat) (noise : ℚ) : ℚ :=
  rads.getD cat 0 + noise * std

/-- One row of `self.inputs`: the sampled point in Cartesian coordinates,
`(r * cos(angle * 2π), r * sin(angle * 2π))`.  `cos2pi`/`sin2pi` abstract
`θ ↦ cos (2π θ)` and `θ ↦ sin (2π θ)` for `θ` drawn uniformly from `[0,1)`. -/
def samplePoint (cos2pi sin2pi : ℚ → ℚ) (rads : List ℚ) (std : ℚ)
    (cat : Nat) (noise angle : ℚ) : ℚ × ℚ :=
  (ptRadius rads std cat noise * cos2pi angle,
   ptRadius rads std cat noise * sin2pi angle)

/-- The whole dataset built by `CircleData(radii, n_dpt, std)`: the list of
`(input, label)` pairs indexed by sample number.  `self.cats =
torch.randint(len(radii), (n_dpt,))` is modelled by reducing an arbitrary
natural-number stream modulo `len(radii)`, which is exactly the range
contract of `randint`. -/
def circleData (cos2pi sin2pi : ℚ → ℚ) (rads : List ℚ) (nDpt : Nat) (std : ℚ)
    (rawCats : Nat → Nat) (noise angle : Nat → ℚ) : List ((ℚ × ℚ) × Nat) :=
  (List.range nDpt).map fun i =>
    let cat := rawCats i % rads.length
    (samplePoint cos2pi sin2pi rads std cat (noise i) (angle i), cat)

/-! ### Training loop (`train_loop`) -/

/-- The mutable autograd state of `train_loop`: the flattened model
parameters together with the `.grad` accumulators attached to them. -/
structure SGDState (P : Type) where
  params : P
  grads : P
  deriving Repr

/-- One iteration of the `for i, data in enumerate(dataloader)` body, in
source order: `optimizer.zero_grad()` clears the accumulators,
`loss.backward()` adds the gradient of the current batch's loss into them,
`optimizer.step()` performs `params ← params - lr · grads`.
`gradFn p b` is the gradient at parameters `p` of the cross-entropy loss of
batch `b`, as delivered by backpropagation. -/
def trainBatch {P B : Type} [AddCommGroup P] [SMul ℚ P]
    (gradFn : P → B → P) (lr : ℚ) (s : SGDState P) (b : B) : SGDState P :=
  let zeroed : P := 0
  let accumulated : P := zeroed + gradFn s.params b
  { params := s.params - lr • accumulated, grads := accumulated }

/-- The enumerated loop of `train_loop`, threading the batch index `i`, the
autograd state and the list of `(batch index, loss)` lines printed so far.
When `i % 100 == 0 and verbose`, the loss of the batch just processed is
logged. -/
def trainLoopAux {P B : Type} [AddCommGroup P] [SMul ℚ P]
    (lossFn : P → B → ℚ) (gradFn : P → B → P) (lr : ℚ) (verbose : Bool)
    (i : Nat) (batches : List B) (s : SGDState P) (log : List (Nat × ℚ)) :
    SGDState P × List (Nat × ℚ) :=
  match batches with
  | [] => (s, log)
  | b :: rest =>
      let s' := trainBatch gradFn lr s b
      let log' := if i % 100 == 0 && verbose then log ++ [(i, lossFn s.params b)] else log
      trainLoopAux lossFn gradFn lr verbose (i + 1) rest s' log'

/-- `train_loop(dataloader, model, loss_fn, optimizer, verbose)`: one pass
over the batches, returning the final autograd state and the printed log. -/
def train_loop {P B : Type} [AddCommGroup P] [SMul ℚ P]
    (lossFn : P → B → ℚ) (gradFn : P → B → P) (lr : ℚ) (verbose : Bool)
    (batches : List B) (s : SGDState P) : SGDState P × List (Nat × ℚ) :=
  trainLoopAux lossFn gradFn lr verbose 0 batches s []

/-! ### Dataset split (`random_split(dataset, [0.8, 0.2])`) -/

/-- The subset sizes `random_split` derives from the fractions `[0.8, 0.2]`
for a dataset of `n` samples: floor each fraction of `n`, then hand the
remaining samples out round-robin starting with the first subset. -/
def splitLengths (n : Nat) : Nat × Nat :=
  let l0 := 8 * n / 10
  let l1 := 2 * n / 10
  let r := n - (l0 + l1)
  (l0 + (r + 1) / 2, l1 + r / 2)

/-- `random_split` applied to a shuffled index list `perm` (the output of
`randperm(n)`): the first subset takes the first `l0` shuffled indices, the
second the rest. -/
def random_split (perm : List Nat) : List Nat × List Nat :=
  (perm.take (splitLengths perm.length).1, perm.drop (splitLengths perm.length).1)

/-! ### Evaluation grid (lines 129-133) -/

/-- Python's `max` over a list, for nonempty lists (folding `max` from the
head). -/
def listMax (l : List ℚ) : ℚ := l.foldl max (l.headD 0)

/-- `ax_length = max(max(radii) * 1.5, max([max(abs(x)) for x, _ in dataset]))`:
the grid half-extent, the larger of 1.5 times the largest ring radius and
the largest absolute coordinate over the generated points. -/
def ax_length (rads : List ℚ) (pts : List (ℚ × ℚ)) : ℚ :=
  max (listMax rads * (3 / 2)) (listMax (pts.map fun p => max |p.1| |p.2|))

/-- `torch.linspace(lo, hi, steps)`: `steps` evenly spaced values from `lo`
to `hi` inclusive. -/
def linspace (lo hi : ℚ) (steps : Nat) : List ℚ :=
  (List.range steps).map fun (i : Nat) =>
    lo + (i : ℚ) * ((hi - lo) / ((steps : ℚ) - 1))

/-- The flattened mesh `torch.stack((x.ravel(), y.ravel()), axis=1)` built
from `meshgrid(ls, ls, indexing="ij")` with `ls = linspace(-ax_length,
ax_length, npoints)`: point `k` pairs `ls[k / npoints]` with
`ls[k % npoints]`. -/
def mesh (ext : ℚ) : List (ℚ × ℚ) :=
  let ls := linspace (-ext) ext npoints
  (List.range (npoints * npoints)).map fun k =>
    (ls.getD (k / npoints) 0, ls.getD (k % npoints) 0)

/-! ### Model and checkpoint evaluation -/

/-- `nn.ReLU`. -/
def relu (x : ℚ) : ℚ := max x 0

/-- Parameters of `nn.Sequential(nn.Linear(2, h), nn.ReLU(), nn.Linear(h, c))`. -/
structure MLP (h c : Nat) where
  w1 : Fin h → Fin 2 → ℚ
  b1 : Fin h → ℚ
  w2 : Fin c → Fin h → ℚ
  b2 : Fin c → ℚ

/-- The model's forward pass on one 2-D point: unnormalized class scores. -/
def mlpScores {h c : Nat} (m : MLP h c) (p : ℚ × ℚ) : Fin c → ℚ :=
  fun j => (∑ i, m.w2 j i * relu (m.w1 i 0 * p.1 + m.w1 i 1 * p.2 + m.b1 i)) + m.b2 j

/-- `nn.Softmax(dim=-1)` on one score vector, with `exp` abstracted by
`expF`. -/
def softmax {c : Nat} (expF : ℚ → ℚ) (z : Fin c → ℚ) : Fin c → ℚ :=
  fun j => expF (z j) / ∑ k, expF (z k)

/-- `nn.Softmax(dim=-1)(model(mesh))`: the probability field over a grid,
one probability vector per grid point. -/
def evalField {h c : Nat} (expF : ℚ → ℚ) (m : MLP h c) (grid : List (ℚ × ℚ)) :
    List (Fin c → ℚ) :=
  grid.map fun p => softmax expF (mlpScores m p)

/-- One execution of `epoch_mesh_preds.append(nn.Softmax(dim=-1)(model(mesh)))`
on the program state (current model, checkpoints stored so far). -/
def capture {h c : Nat} (expF : ℚ → ℚ) (grid : List (ℚ × ℚ))
    (s : MLP h c × List (List (Fin c → ℚ))) : MLP h c × List (List (Fin c → ℚ)) :=
  (s.1, s.2 ++ [evalField expF s.1 grid])

/-! ### Top-level epoch loop (lines 135-140) -/

/-- The top-level run: `epoch_mesh_preds` starts with one pre-training
evaluation, then `for t in range(n_epochs)` trains one epoch
(`trainEpoch`, the state transformer of one full `train_loop` call) and
appends an evaluation whenever `t + 1` is in the plot list.  Returns the
final model state and the stored checkpoint fields. -/
def runEpochs {M F : Type} (trainEpoch : M → M) (ev : M → F) (m0 : M)
    (nE : Nat) (plot : List Nat) : M × List F :=
  (List.range nE).foldl
    (fun s t =>
      let m := trainEpoch s.1
      (m, if t + 1 ∈ plot then s.2 ++ [ev m] else s.2))
    (m0, [ev m0])

/-! ### Visualization helpers (`plot_ax`) -/

/-- `matplotlib.colors.to_rgb` restricted to the single-letter color names
used by the script's palette. -/
def to_rgb (c : String) : List ℚ :=
  if c = "r" then [1, 0, 0]
  else if c = "b" then [0, 0, 1]
  else if c = "g" then [0, 1 / 2, 0]
  else if c = "c" then [0, 3 / 4, 3 / 4]
  else if c = "m" then [3 / 4, 0, 3 / 4]
  else if c = "y" then [3 / 4, 3 / 4, 0]
  else [0, 0, 0]

/-- The default palette of `plot_ax`: `["r", "b", "g", "c", "m", "y", "k"]`. -/
def default_cols : List String := ["r", "b", "g", "c", "m", "y", "k"]

/-- Dot product of two rows (zipping truncates at the shorter). -/
def dot (a b : List ℚ) : ℚ := ((a.zip b).map fun p => p.1 * p.2).sum

/-- `torch.matmul` on row-major matrices, failing (as torch raises) when an
`A` row's length does not match the row count of `B`. -/
def matmulChecked (A B : List (List ℚ)) : Option (List (List ℚ)) :=
  if A.all fun row => row.length == B.length then
    some (A.map fun row =>
      (List.range (B.headD []).length).map fun j => dot row (B.map fun br => br.getD j 0))
  else none

/-- The color computation of `plot_ax`: truncate the palette to
`mesh_pred.shape[1]` entries (`cols = cols[: mesh_pred.shape[1]]`), turn it
into the RGB matrix `col_rgb_arr`, and form `mesh_cols =
torch.matmul(mesh_pred, col_rgb_arr.T)`. -/
def plot_ax_cols (meshPred : List (List ℚ)) (cols : List String) :
    Option (List (List ℚ)) :=
  let c := (meshPred.headD []).length
  let colMat := (cols.take c).map to_rgb
  matmulChecked meshPred colMat

/-- Pointwise sum of two RGB vectors. -/
def vaddRGB (a b : List ℚ) : List ℚ := List.zipWith (· + ·) a b

/-- Scaling of an RGB vector by a weight. -/
def smulRGB (t : ℚ) (v : List ℚ) : List ℚ := v.map fun x => t * x

/-- Modelled from the spec: the probability-weighted sum over classes of the
palette's RGB colors — the convex combination `Σ_c prob_c · rgb_c` the spec
says each rendered color must equal. -/
def blendSpec (probs : List ℚ) (palette : List (List ℚ)) : List ℚ :=
  (List.zipWith smulRGB probs palette).foldr vaddRGB [0, 0, 0]

/-! ## Helper lemmas about the training loop -/

lemma trainLoopAux_fst {P B : Type} [AddCommGroup P] [SMul ℚ P]
    (lossFn : P → B → ℚ) (gradFn : P → B → P) (lr : ℚ) (verbose : Bool)
    (batches : List B) :
    ∀ (i : Nat) (s : SGDState P) (log : List (Nat × ℚ)),
      (trainLoopAux lossFn gradFn lr verbose i batches s log).1
        = batches.foldl (trainBatch gradFn lr) s := by
  induction batches with
  | nil => intro i s log; rfl
  | cons b rest ih =>
      intro i s log
      simp only [trainLoopAux, List.foldl_cons]
      exact ih (i + 1) (trainBatch gradFn lr s b) _

lemma foldl_trainBatch_params {P B : Type} [AddCommGroup P] [SMul ℚ P]
    (gradFn : P → B → P) (lr : ℚ) (batches : List B) :
    ∀ s : SGDState P,
      (batches.foldl (trainBatch gradFn lr) s).params
        = batches.foldl (fun p b => p - lr • gradFn p b) s.params := by
  induction batches with
  | nil => intro s; rfl
  | cons b rest ih =>
      intro s
      simp only [List.foldl_cons]
      rw [ih]
      simp [trainBatch]

lemma trainLoopAux_log_false {P B : Type} [AddCommGroup P] [SMul ℚ P]
    (lossFn : P → B → ℚ) (gradFn : P → B → P) (lr : ℚ) (batches : List B) :
    ∀ (i : Nat) (s : SGDState P) (log : List (Nat × ℚ)),
      (trainLoopAux lossFn gradFn lr false i batches s log).2 = log := by
  induction batches with
  | nil => intro i s log; rfl
  | cons b rest ih =>
      intro i s log
      simp only [trainLoopAux, Bool.and_false, if_neg, Bool.false_eq_true,
        not_false_iff]
      exact ih (i + 1) _ log

lemma trainLoopAux_log_true_indices {P B : Type} [AddCommGroup P] [SMul ℚ P]
    (lossFn : P → B → ℚ) (gradFn : P → B → P) (lr : ℚ) (batches : List B) :
    ∀ (i : Nat) (s : SGDState P) (log : List (Nat × ℚ)),
      ((trainLoopAux lossFn gradFn lr true i batches s log).2).map Prod.fst
        = log.map Prod.fst
            ++ ((List.range batches.length).map fun j => i + j).filter
                  fun k => k % 100 == 0 := by
  induction batches with
  | nil => intro i s log; simp [trainLoopAux]
  | cons b rest ih =>
      intro i s log
      simp only [trainLoopAux, Bool.and_true, List.length_cons,
        List.range_succ_eq_map, List.map_cons, List.map_map, List.filter_cons]
      have hmap : (List.range rest.length).map ((fun j => i + j) ∘ Nat.succ)
          = (List.range rest.length).map fun j => (i + 1) + j := by
        apply List.map_congr_left
        intro a _
        simp only [Function.comp_apply]
        omega
      rw [hmap]
      by_cases h : i % 100 == 0
      · rw [if_pos h]
        rw [ih (i + 1) _ (log ++ [(i, lossFn s.params b)])]
        simp [h]
      · rw [if_neg (by simpa using h)]
        rw [ih (i + 1) _ log]
        simp [h]

/-! ## Claims about the training loop -/

/-- C1: `train_loop` processes the batches in order and, for each batch,
resets the gradient accumulators to zero before the backward pass,
accumulates exactly that batch's gradient, and applies exactly one
optimizer step `params ← params - lr · grad`.  The final parameters equal an
in-order fold that uses only each batch's freshly computed gradient; in
particular the right-hand side does not depend on the stale accumulator
`s0.grads`, so no gradient from an earlier batch contributes to a later
update. -/
theorem train_loop_fresh_gradient_updates {P B : Type} [AddCommGroup P] [SMul ℚ P]
    (lossFn : P → B → ℚ) (gradFn : P → B → P) (lr : ℚ) (verbose : Bool)
    (batches : List B) (s0 : SGDState P) :
    (train_loop lossFn gradFn lr verbose batches s0).1.params
      = batches.foldl (fun p b => p - lr • gradFn p b) s0.params := by
  unfold train_loop
  rw [trainLoopAux_fst, foldl_trainBatch_params]

/-- Witness for C1 at concrete data: scalar parameters, two batches, a
nonzero stale gradient accumulator in the initial state. -/
theorem train_loop_fresh_gradient_updates_witness :
    (train_loop (fun _ _ => 0) (fun p b => p + b) 1 false [1, 2]
        (⟨0, 5⟩ : SGDState ℚ)).1.params
      = ([1, 2] : List ℚ).foldl (fun p b => p - (1 : ℚ) • (p + b)) 0 :=
  train_loop_fresh_gradient_updates (fun _ _ => 0) (fun p b => p + b) 1 false [1, 2] ⟨0, 5⟩

/-- C9: the `verbose` flag of `train_loop` is purely observational: with
identical inputs the final autograd state (parameters and gradients) is the
same with `verbose` on or off; with `verbose` off nothing is printed; and
with `verbose` on the printed lines are exactly the batches whose zero-based
index is a multiple of 100, in order. -/
theorem train_loop_verbose_observational {P B : Type} [AddCommGroup P] [SMul ℚ P]
    (lossFn : P → B → ℚ) (gradFn : P → B → P) (lr : ℚ)
    (batches : List B) (s0 : SGDState P) :
    (train_loop lossFn gradFn lr true batches s0).1
        = (train_loop lossFn gradFn lr false batches s0).1
      ∧ (train_loop lossFn gradFn lr false batches s0).2 = []
      ∧ ((train_loop lossFn gradFn lr true batches s0).2).map Prod.fst
          = (List.range batches.length).filter fun i => i % 100 == 0 := by
  refine ⟨?_, ?_, ?_⟩
  · unfold train_loop
    rw [trainLoopAux_fst, trainLoopAux_fst]
  · exact trainLoopAux_log_false lossFn gradFn lr batches 0 s0 []
  · unfold train_loop
    rw [trainLoopAux_log_true_indices]
    simp

/-- Witness for C9 at concrete data: 101 scalar batches, so that the log
indices are `[0, 100]`. -/
theorem train_loop_verbose_observational_witness :
    (train_loop (fun p b => p * b) (fun p b => p + b) 1 true
          (List.range 101 |>.map fun i => (i : ℚ)) (⟨0, 5⟩ : SGDState ℚ)).1
        = (train_loop (fun p b => p * b) (fun p b => p + b) 1 false
          (List.range 101 |>.map fun i => (i : ℚ)) (⟨0, 5⟩ : SGDState ℚ)).1
      ∧ (train_loop (fun p b => p * b) (fun p b => p + b) 1 false
          (List.range 101 |>.map fun i => (i : ℚ)) (⟨0, 5⟩ : SGDState ℚ)).2 = []
      ∧ ((train_loop (fun p b => p * b) (fun p b => p + b) 1 true
          (List.range 101 |>.map fun i => (i : ℚ)) (⟨0, 5⟩ : SGDState ℚ)).2).map Prod.fst
          = (List.range (List.range 101 |>.map fun i => (i : ℚ)).length).filter
              fun i => i % 100 == 0 :=
  train_loop_verbose_observational (fun p b => p * b) (fun p b => p + b) 1
    (List.range 101 |>.map fun i => (i : ℚ)) ⟨0, 5⟩

/-! ## Helper lemmas about the top-level epoch loop -/

lemma runEpochs_spec {M F : Type} (trainE : M → M) (ev : M → F) (m0 : M)
    (plot : List Nat) :
    ∀ nE, runEpochs trainE ev m0 nE plot
      = (trainE^[nE] m0,
         [ev m0] ++ ((List.range nE).filter fun t => decide (t + 1 ∈ plot)).map
            fun t => ev (trainE^[t + 1] m0)) := by
  intro nE
  induction nE with
  | zero => simp [runEpochs]
  | succ n ih =>
      unfold runEpochs at ih ⊢
      rw [List.range_succ, List.foldl_append, ih]
      simp only [List.foldl_cons, List.foldl_nil, List.filter_append,
        List.map_append]
      by_cases hmem : n + 1 ∈ plot
      · simp [hmem, Function.iterate_succ_apply']
      · simp [hmem, Function.iterate_succ_apply']

lemma softmax_distribution {c : Nat} (expF : ℚ → ℚ) (hexp : ∀ x, 0 < expF x)
    (hc : 0 < c) (z : Fin c → ℚ) :
    (∀ j, 0 ≤ softmax expF z j ∧ softmax expF z j ≤ 1)
      ∧ (∑ j, softmax expF z j) = 1 := by
  have hne : (Finset.univ : Finset (Fin c)).Nonempty :=
    ⟨⟨0, hc⟩, Finset.mem_univ _⟩
  have hS : 0 < ∑ k, expF (z k) :=
    Finset.sum_pos (fun k _ => hexp (z k)) hne
  constructor
  · intro j
    constructor
    · exact div_nonneg (hexp (z j)).le hS.le
    · show expF (z j) / (∑ k, expF (z k)) ≤ 1
      rw [div_le_one hS]
      exact Finset.single_le_sum (fun k _ => (hexp (z k)).le) (Finset.mem_univ j)
  · show (∑ j, expF (z j) / ∑ k, expF (z k)) = 1
    rw [← Finset.sum_div, div_self (ne_of_gt hS)]

set_option maxRecDepth 100000 in
lemma runEpochs_map_checkpoints {M F : Type} (trainE : M → M) (ev : M → F)
    (m0 : M) :
    (runEpochs trainE ev m0 n_epochs epochs_to_plot).2
      = epochs_to_plot.map (fun e => ev (trainE^[e] m0)) := by
  have hspec := congrArg Prod.snd
    (runEpochs_spec trainE ev m0 epochs_to_plot n_epochs)
  rw [hspec]
  have hf : ((List.range n_epochs).filter
        fun t => decide (t + 1 ∈ epochs_to_plot)) = [9, 19, 49, 99, 499] := by
    decide
  rw [hf]
  simp [epochs_to_plot]

/-! ## Claims about checkpoint capture -/

/-- C2: the top-level run stores exactly one probability field per epoch in
`epochs_to_plot = [0, 10, 20, 50, 100, 500]`: the stored list equals the
map, over that list in order, of the evaluation of the model after exactly
`e` complete epochs of training — so the epoch-0 field is the evaluation of
the untrained model, every other field is evaluated only after all batches
of its epoch and of all earlier epochs (one `trainEpoch` application per
completed epoch), and the checkpoint epochs are strictly increasing. -/
theorem checkpoints_once_per_epoch_in_order {M F : Type}
    (trainEpoch : M → M) (ev : M → F) (m0 : M) :
    (runEpochs trainEpoch ev m0 n_epochs epochs_to_plot).2
        = epochs_to_plot.map (fun e => ev (trainEpoch^[e] m0))
      ∧ List.Chain' (· < ·) epochs_to_plot := by
  constructor
  · exact runEpochs_map_checkpoints trainEpoch ev m0
  · simp only [epochs_to_plot, List.chain'_cons, List.chain'_singleton, and_true]
    norm_num

/-- Witness for C2 at a concrete instantiation: epoch counting on `ℕ` with
the successor function as the epoch trainer. -/
theorem checkpoints_once_per_epoch_in_order_witness :
    (runEpochs Nat.succ (fun m => m) 0 n_epochs epochs_to_plot).2
        = epochs_to_plot.map (fun e => Nat.succ^[e] 0)
      ∧ List.Chain' (· < ·) epochs_to_plot :=
  checkpoints_once_per_epoch_in_order Nat.succ (fun m => m) 0

/-- C7: checkpoint evaluation does not mutate the model, and two successive
evaluations of the same model over the same grid with no training in
between append numerically identical probability fields. -/
theorem evaluation_no_mutation_idempotent {h c : Nat} (expF : ℚ → ℚ)
    (grid : List (ℚ × ℚ)) (s : MLP h c × List (List (Fin c → ℚ))) :
    (capture expF grid (capture expF grid s)).2
        = s.2 ++ [evalField expF s.1 grid, evalField expF s.1 grid]
      ∧ (capture expF grid s).1 = s.1 := by
  constructor
  · simp [capture]
  · rfl

/-- Witness for C7 at a concrete state: the zero 1-hidden-unit, 1-class
model with an empty checkpoint store and a one-point grid. -/
theorem evaluation_no_mutation_idempotent_witness :
    (capture (fun _ => 1) [(0, 0)]
        (capture (fun _ => 1) [(0, 0)]
          ((⟨fun _ _ => 0, fun _ => 0, fun _ _ => 0, fun _ => 0⟩, []) :
            MLP 1 1 × List (List (Fin 1 → ℚ))))).2
        = ([] : List (List (Fin 1 → ℚ)))
            ++ [evalField (fun _ => 1)
                  (⟨fun _ _ => 0, fun _ => 0, fun _ _ => 0, fun _ => 0⟩ : MLP 1 1)
                  [(0, 0)],
                evalField (fun _ => 1)
                  (⟨fun _ _ => 0, fun _ => 0, fun _ _ => 0, fun _ => 0⟩ : MLP 1 1)
                  [(0, 0)]]
      ∧ (capture (fun _ => 1) [(0, 0)]
          ((⟨fun _ _ => 0, fun _ => 0, fun _ _ => 0, fun _ => 0⟩, []) :
            MLP 1 1 × List (List (Fin 1 → ℚ)))).1
          = (⟨fun _ _ => 0, fun _ => 0, fun _ _ => 0, fun _ => 0⟩ : MLP 1 1) :=
  evaluation_no_mutation_idempotent (fun _ => 1) [(0, 0)]
    (⟨fun _ _ => 0, fun _ => 0, fun _ _ => 0, fun _ => 0⟩, [])

/-- C10: every stored checkpoint field is a softmax field, so at every grid
point it is a probability distribution over the classes: each entry lies in
`[0, 1]` and the entries sum to `1`, for the epoch-0 field and for every
later checkpoint field alike. -/
theorem checkpoint_fields_are_distributions {h c : Nat} (expF : ℚ → ℚ)
    (hexp : ∀ x, 0 < expF x) (hc : 0 < c)
    (trainEpoch : MLP h c → MLP h c) (m0 : MLP h c) (grid : List (ℚ × ℚ)) :
    ∀ f ∈ (runEpochs trainEpoch (fun m => evalField expF m grid) m0
        n_epochs epochs_to_plot).2,
      ∀ v ∈ f, (∀ j, 0 ≤ v j ∧ v j ≤ 1) ∧ (∑ j, v j) = 1 := by
  intro f hf v hv
  rw [congrArg Prod.snd (runEpochs_spec trainEpoch
    (fun m => evalField expF m grid) m0 epochs_to_plot n_epochs)] at hf
  have hform : ∃ m : MLP h c, f = evalField expF m grid := by
    rcases List.mem_append.mp hf with h1 | h2
    · exact ⟨m0, (List.mem_singleton.mp h1)⟩
    · rcases List.mem_map.mp h2 with ⟨t, _, ht⟩
      exact ⟨trainEpoch^[t + 1] m0, ht.symm⟩
  rcases hform with ⟨m, rfl⟩
  rcases List.mem_map.mp hv with ⟨p, _, hp⟩
  rcases hp ▸ softmax_distribution expF hexp hc (mlpScores m p) with ⟨hb, hs⟩
  exact ⟨hb, hs⟩

/-- Witness for C10 at a concrete instantiation: constant abstract `exp`,
one class, the zero model, a one-point grid. -/
theorem checkpoint_fields_are_distributions_witness :
    (∀ _x : ℚ, 0 < (1 : ℚ)) ∧ 0 < 1
      ∧ ∀ f ∈ (runEpochs (fun m => m)
            (fun m => evalField (fun _ => 1) m [(0, 0)])
            (⟨fun _ _ => 0, fun _ => 0, fun _ _ => 0, fun _ => 0⟩ : MLP 1 1)
            n_epochs epochs_to_plot).2,
          ∀ v ∈ f, (∀ j, 0 ≤ v j ∧ v j ≤ 1) ∧ (∑ j, v j) = 1 :=
  ⟨fun _ => one_pos, Nat.one_pos,
    checkpoint_fields_are_distributions (fun _ => 1) (fun _ => one_pos)
      Nat.one_pos (fun m => m) ⟨fun _ _ => 0, fun _ => 0, fun _ _ => 0, fun _ => 0⟩
      [(0, 0)]⟩

/-! ## Helper lemmas about the evaluation grid -/

lemma getD_map_range {α : Type} (f : Nat → α) (n k : Nat) (d : α) :
    ((List.range n).map f).getD k d = if k < n then f k else d := by
  by_cases hk : k < n
  · rw [List.getD_eq_getElem?_getD, List.getElem?_map, List.getElem?_range hk]
    simp [hk]
  · rw [List.getD_eq_getElem?_getD,
      List.getElem?_eq_none (by simpa using Nat.le_of_not_lt hk)]
    simp [hk]

lemma linspace_getD (lo hi : ℚ) (steps k : Nat) (hk : k < steps) :
    (linspace lo hi steps).getD k 0
      = lo + (k : ℚ) * ((hi - lo) / ((steps : ℚ) - 1)) := by
  unfold linspace
  rw [getD_map_range, if_pos hk]

lemma mesh_getD (ext : ℚ) (k : Nat) (hk : k < npoints * npoints) :
    (mesh ext).getD k (0, 0)
      = ((linspace (-ext) ext npoints).getD (k / npoints) 0,
         (linspace (-ext) ext npoints).getD (k % npoints) 0) := by
  unfold mesh
  rw [getD_map_range, if_pos hk]

lemma foldl_max_bounds (l : List ℚ) :
    ∀ b : ℚ, b ≤ l.foldl max b ∧ ∀ x ∈ l, x ≤ l.foldl max b := by
  induction l with
  | nil => intro b; exact ⟨le_refl b, by simp⟩
  | cons a t ih =>
      intro b
      simp only [List.foldl_cons]
      obtain ⟨h1, h2⟩ := ih (max b a)
      refine ⟨le_trans (le_max_left b a) h1, ?_⟩
      intro x hx
      rcases List.mem_cons.mp hx with heq | hx
      · rw [heq]
        exact le_trans (le_max_right b a) h1
      · exact h2 x hx

lemma le_listMax (l : List ℚ) (x : ℚ) (hx : x ∈ l) : x ≤ listMax l :=
  (foldl_max_bounds l (l.headD 0)).2 x hx

/-- C3: the evaluation grid.  The extent bounds 1.5 times every ring radius
and the absolute value of every data coordinate (it is the max of the two
maxima); the mesh is a flattened 101 × 101 square of points pairing
`ls[k / 101]` with `ls[k % 101]` where `ls` is the 101-point even
subdivision of `[-ext, ext]` (explicit affine formula, constant spacing
`2·ext/100`, endpoints `-ext` and `ext`); and the run evaluates the model
over the *same* mesh term for the epoch-0 checkpoint and for every later
checkpoint. -/
theorem mesh_grid_construction {h c : Nat} (expF : ℚ → ℚ)
    (trainEpoch : MLP h c → MLP h c) (m0 : MLP h c)
    (rads : List ℚ) (pts : List (ℚ × ℚ)) (ext : ℚ) :
    (∀ r ∈ rads, r * (3 / 2) ≤ ax_length rads pts)
      ∧ (∀ p ∈ pts, |p.1| ≤ ax_length rads pts ∧ |p.2| ≤ ax_length rads pts)
      ∧ npoints = 101
      ∧ (mesh ext).length = npoints * npoints
      ∧ (∀ k, k < npoints * npoints →
          (mesh ext).getD k (0, 0)
            = (-ext + ((k / npoints : Nat) : ℚ) * (2 * ext / 100),
               -ext + ((k % npoints : Nat) : ℚ) * (2 * ext / 100)))
      ∧ (∀ i, i + 1 < npoints →
          (linspace (-ext) ext npoints).getD (i + 1) 0
              - (linspace (-ext) ext npoints).getD i 0 = 2 * ext / 100)
      ∧ (linspace (-ext) ext npoints).getD 0 0 = -ext
      ∧ (linspace (-ext) ext npoints).getD (npoints - 1) 0 = ext
      ∧ (runEpochs trainEpoch (fun m => evalField expF m (mesh ext)) m0
            n_epochs epochs_to_plot).2
          = epochs_to_plot.map
              (fun e => evalField expF (trainEpoch^[e] m0) (mesh ext)) := by
  have hspread : ∀ k : Nat, k < npoints →
      (linspace (-ext) ext npoints).getD k 0
        = -ext + (k : ℚ) * (2 * ext / 100) := by
    intro k hk
    rw [linspace_getD _ _ _ _ hk]
    have h100 : ((npoints : Nat) : ℚ) - 1 = 100 := by norm_num [npoints]
    rw [h100]
    ring
  refine ⟨?_, ?_, rfl, ?_, ?_, ?_, ?_, ?_, ?_⟩
  · intro r hr
    calc r * (3 / 2) ≤ listMax rads * (3 / 2) := by
          have := le_listMax rads r hr
          linarith
      _ ≤ ax_length rads pts := le_max_left _ _
  · intro p hp
    have hmem : max |p.1| |p.2| ∈ pts.map fun q => max |q.1| |q.2| :=
      List.mem_map.mpr ⟨p, hp, rfl⟩
    have hle := le_listMax _ _ hmem
    have hax : listMax (pts.map fun q => max |q.1| |q.2|) ≤ ax_length rads pts :=
      le_max_right _ _
    constructor
    · exact le_trans (le_trans (le_max_left _ _) hle) hax
    · exact le_trans (le_trans (le_max_right _ _) hle) hax
  · simp [mesh]
  · intro k hk
    rw [mesh_getD ext k hk]
    have h1 : k / npoints < npoints := by
      rw [Nat.div_lt_iff_lt_mul (by norm_num [npoints] : 0 < npoints)]
      exact hk
    have h2 : k % npoints < npoints := Nat.mod_lt _ (by norm_num [npoints])
    rw [hspread _ h1, hspread _ h2]
  · intro i hi
    rw [hspread _ hi, hspread _ (Nat.lt_of_succ_lt hi)]
    push_cast
    ring
  · rw [hspread 0 (by norm_num [npoints])]
    norm_num
  · rw [hspread (npoints - 1) (by norm_num [npoints])]
    norm_num [npoints]
    ring
  · exact runEpochs_map_checkpoints trainEpoch
      (fun m => evalField expF m (mesh ext)) m0

/-- Witness for C3 at a concrete instantiation: unit extent, singleton data,
one class, the zero model, identity epoch trainer. -/
theorem mesh_grid_construction_witness :
    (∀ r ∈ ([1] : List ℚ), r * (3 / 2) ≤ ax_length [1] [(0, 0)])
      ∧ (∀ p ∈ ([(0, 0)] : List (ℚ × ℚ)),
          |p.1| ≤ ax_length [1] [(0, 0)] ∧ |p.2| ≤ ax_length [1] [(0, 0)])
      ∧ npoints = 101
      ∧ (mesh 1).length = npoints * npoints
      ∧ (∀ k, k < npoints * npoints →
          (mesh 1).getD k (0, 0)
            = (-1 + ((k / npoints : Nat) : ℚ) * (2 * 1 / 100),
               -1 + ((k % npoints : Nat) : ℚ) * (2 * 1 / 100)))
      ∧ (∀ i, i + 1 < npoints →
          (linspace (-1) 1 npoints).getD (i + 1) 0
              - (linspace (-1) 1 npoints).getD i 0 = 2 * 1 / 100)
      ∧ (linspace (-1) 1 npoints).getD 0 0 = -1
      ∧ (linspace (-1) 1 npoints).getD (npoints - 1) 0 = 1
      ∧ (runEpochs (fun m => m)
            (fun m => evalField (fun _ => 1) m (mesh 1))
            (⟨fun _ _ => 0, fun _ => 0, fun _ _ => 0, fun _ => 0⟩ : MLP 1 1)
            n_epochs epochs_to_plot).2
          = epochs_to_plot.map
              (fun e => evalField (fun _ => 1) ((fun m => m)^[e]
                  (⟨fun _ _ => 0, fun _ => 0, fun _ _ => 0, fun _ => 0⟩ : MLP 1 1))
                (mesh 1)) :=
  mesh_grid_construction (fun _ => 1) (fun m => m)
    ⟨fun _ _ => 0, fun _ => 0, fun _ _ => 0, fun _ => 0⟩ [1] [(0, 0)] 1

/-! ## Claim about data synthesis -/

/-- C5: with `radii = [1, 2]` and `std = 0` every generated sample lies at
squared distance from the origin exactly `radii[label]²` for its label (so,
since the radii are positive, at distance exactly 1 or 2 matching the
label), and for every configuration with a nonempty radius list every
generated label lies in `[0, len(radii))`. -/
theorem circleData_exact_rings (cos2pi sin2pi : ℚ → ℚ)
    (hpy : ∀ θ, cos2pi θ ^ 2 + sin2pi θ ^ 2 = 1)
    (rawCats : Nat → Nat) (noise angle : Nat → ℚ) :
    (∀ s ∈ circleData cos2pi sin2pi [1, 2] 20 0 rawCats noise angle,
        s.1.1 ^ 2 + s.1.2 ^ 2 = (([1, 2] : List ℚ).getD s.2 0) ^ 2 ∧ s.2 < 2)
      ∧ ∀ (rads : List ℚ) (nDpt : Nat) (std : ℚ), 0 < rads.length →
          ∀ s ∈ circleData cos2pi sin2pi rads nDpt std rawCats noise angle,
            s.2 < rads.length := by
  constructor
  · intro s hs
    rcases List.mem_map.mp hs with ⟨i, _, rfl⟩
    simp only [List.length_cons, List.length_nil, List.length_singleton]
    constructor
    · have hR : ptRadius [1, 2] 0 (rawCats i % 2) (noise i)
          = ([1, 2] : List ℚ).getD (rawCats i % 2) 0 := by
        simp [ptRadius]
      simp only [samplePoint, List.length_cons, List.length_nil]
      rw [hR]
      linear_combination
        (([1, 2] : List ℚ).getD (rawCats i % 2) 0) ^ 2 * hpy (angle i)
    · exact Nat.mod_lt _ (by norm_num)
  · intro rads nDpt std hlen s hs
    rcases List.mem_map.mp hs with ⟨i, _, rfl⟩
    exact Nat.mod_lt _ hlen

/-- Witness for C5 at concrete streams: degenerate trig pair `(1, 0)`,
identity category stream, zero noise and angle streams. -/
theorem circleData_exact_rings_witness :
    (∀ _t : ℚ, (1 : ℚ) ^ 2 + (0 : ℚ) ^ 2 = 1)
      ∧ ((∀ s ∈ circleData (fun _ => 1) (fun _ => 0) [1, 2] 20 0
            (fun i => i) (fun _ => 0) (fun _ => 0),
          s.1.1 ^ 2 + s.1.2 ^ 2 = (([1, 2] : List ℚ).getD s.2 0) ^ 2 ∧ s.2 < 2)
        ∧ ∀ (rads : List ℚ) (nDpt : Nat) (std : ℚ), 0 < rads.length →
            ∀ s ∈ circleData (fun _ => 1) (fun _ => 0) rads nDpt std
                (fun i => i) (fun _ => 0) (fun _ => 0),
              s.2 < rads.length) :=
  ⟨fun _ => by norm_num,
    circleData_exact_rings (fun _ => 1) (fun _ => 0)
      (fun _ => by norm_num) (fun i => i) (fun _ => 0) (fun _ => 0)⟩

/-! ## Claim about the dataset split -/

/-- C4: for every dataset of `n` samples shuffled by a permutation of the
index range, `random_split` with fractions `(0.8, 0.2)` yields index lists
that are disjoint, jointly cover all `n` indices, and have lengths summing
to `n`, the lengths being the floored fractions with the remainder handed
out round-robin starting at the first group; for the script's
`50 * n_cats = 300` samples the lengths are exactly 240 and 60. -/
theorem random_split_partition (n : Nat) (perm : List Nat)
    (hp : perm.Perm (List.range n)) :
    (random_split perm).1.length + (random_split perm).2.length = n
      ∧ (random_split perm).1.length = (splitLengths n).1
      ∧ (random_split perm).2.length = (splitLengths n).2
      ∧ (∀ i ∈ (random_split perm).1, i ∉ (random_split perm).2)
      ∧ (∀ i, (i ∈ (random_split perm).1 ∨ i ∈ (random_split perm).2) ↔ i < n)
      ∧ 50 * n_cats = 300
      ∧ splitLengths (50 * n_cats) = (240, 60) := by
  have hlen : perm.length = n := by rw [hp.length_eq, List.length_range]
  have hk : (splitLengths n).1 ≤ n := by
    simp only [splitLengths]
    omega
  have hsum : (splitLengths n).1 + (splitLengths n).2 = n := by
    simp only [splitLengths]
    omega
  have h1 : (random_split perm).1.length = (splitLengths n).1 := by
    simp only [random_split, List.length_take, hlen]
    omega
  have h2 : (random_split perm).2.length = (splitLengths n).2 := by
    simp only [random_split, List.length_drop, hlen]
    omega
  have hnd : perm.Nodup := (hp.nodup_iff).mpr (List.nodup_range n)
  have happ : (random_split perm).1 ++ (random_split perm).2 = perm :=
    List.take_append_drop _ perm
  have hnd2 : ((random_split perm).1 ++ (random_split perm).2).Nodup := by
    rwa [happ]
  refine ⟨by omega, h1, h2, ?_, ?_, by norm_num [n_cats, radii], by decide⟩
  · intro i hi hic
    rcases List.nodup_append.mp hnd2 with ⟨_, _, hdisj⟩
    exact hdisj hi hic
  · intro i
    rw [← List.mem_append, happ, hp.mem_iff, List.mem_range]

/-- Witness for C4 at the script's size: the identity shuffle of 300
indices. -/
theorem random_split_partition_witness :
    (random_split (List.range 300)).1.length
          + (random_split (List.range 300)).2.length = 300
      ∧ (random_split (List.range 300)).1.length = (splitLengths 300).1
      ∧ (random_split (List.range 300)).2.length = (splitLengths 300).2
      ∧ (∀ i ∈ (random_split (List.range 300)).1,
            i ∉ (random_split (List.range 300)).2)
      ∧ (∀ i, (i ∈ (random_split (List.range 300)).1
            ∨ i ∈ (random_split (List.range 300)).2) ↔ i < 300)
      ∧ 50 * n_cats = 300
      ∧ splitLengths (50 * n_cats) = (240, 60) :=
  random_split_partition 300 (List.range 300) (List.Perm.refl _)

/-! ## Helper lemmas about the color computation -/

lemma to_rgb_length (c : String) : (to_rgb c).length = 3 := by
  unfold to_rgb
  split_ifs <;> rfl

lemma range_three_map {α : Type} (f : Nat → α) :
    (List.range 3).map f = [f 0, f 1, f 2] := rfl

lemma matmul_row_blend (row : List ℚ) :
    ∀ palette : List (List ℚ), row.length = palette.length →
      (∀ v ∈ palette, v.length = 3) →
      ((List.range 3).map fun j => dot row (palette.map fun br => br.getD j 0))
        = blendSpec row palette := by
  induction row with
  | nil =>
      intro palette h1 h2
      have : palette = [] := by
        cases palette with
        | nil => rfl
        | cons v vs => simp at h1
      subst this
      rfl
  | cons p ps ih =>
      intro palette h1 h2
      obtain ⟨v, vs, rfl⟩ : ∃ v vs, palette = v :: vs := by
        cases palette with
        | nil => simp at h1
        | cons v vs => exact ⟨v, vs, rfl⟩
      obtain ⟨a, b, c3, rfl⟩ : ∃ a b c3, v = [a, b, c3] :=
        List.length_eq_three.mp (h2 v (List.mem_cons_self v vs))
      have ih' := ih vs (by simpa using h1)
        (fun w hw => h2 w (List.mem_cons_of_mem _ hw))
      have hmap : blendSpec ps vs
          = [dot ps (vs.map fun br => br.getD 0 0),
             dot ps (vs.map fun br => br.getD 1 0),
             dot ps (vs.map fun br => br.getD 2 0)] := by
        rw [← ih']
        rfl
      rw [range_three_map]
      simp only [blendSpec, List.zipWith_cons_cons, List.foldr_cons]
      have hfold : (List.zipWith smulRGB ps vs).foldr vaddRGB [0, 0, 0]
          = blendSpec ps vs := rfl
      rw [hfold, hmap]
      simp [dot, vaddRGB, smulRGB]

/-! ## Claims about the visualization -/

/-- C8: whenever the palette has at least as many entries as the number of
classes (the width of the prediction matrix), the truncation
`cols[: mesh_pred.shape[1]]` yields exactly one color per class and the
matrix product is shape-correct, so `plot_ax` cannot hit the shape-mismatch
error; the script's literals satisfy the precondition, with
`n_cats = len(radii) = 6` classes and 7 default palette colors. -/
theorem palette_covers_classes (meshPred : List (List ℚ)) (cols : List String)
    (nc : Nat) (hrows : ∀ row ∈ meshPred, row.length = nc)
    (hne : meshPred ≠ []) (hcols : nc ≤ cols.length) :
    (cols.take nc).length = nc
      ∧ (∃ out, plot_ax_cols meshPred cols = some out)
      ∧ n_cats = 6 ∧ default_cols.length = 7 ∧ n_cats ≤ default_cols.length := by
  obtain ⟨hd, tl, rfl⟩ := List.exists_cons_of_ne_nil hne
  have hhd : hd.length = nc := hrows hd (List.mem_cons_self hd tl)
  have htake : (cols.take nc).length = nc := by
    rw [List.length_take]
    omega
  refine ⟨htake, ?_, rfl, rfl, by norm_num [n_cats, radii, default_cols]⟩
  simp only [plot_ax_cols, matmulChecked, List.headD_cons, hhd]
  rw [if_pos]
  · exact ⟨_, rfl⟩
  · rw [List.all_eq_true]
    intro row hr
    have hrow := hrows row hr
    simp only [List.length_map, htake, hrow, beq_self_eq_true]

/-- Witness for C8 at the script's configuration: a single uniform
six-class probability row with the default palette. -/
theorem palette_covers_classes_witness :
    (∀ row ∈ [[(1 : ℚ) / 6, 1 / 6, 1 / 6, 1 / 6, 1 / 6, 1 / 6]],
        row.length = 6)
      ∧ ([[(1 : ℚ) / 6, 1 / 6, 1 / 6, 1 / 6, 1 / 6, 1 / 6]]
          ≠ ([] : List (List ℚ)))
      ∧ 6 ≤ default_cols.length
      ∧ ((default_cols.take 6).length = 6
        ∧ (∃ out, plot_ax_cols
            [[(1 : ℚ) / 6, 1 / 6, 1 / 6, 1 / 6, 1 / 6, 1 / 6]]
            default_cols = some out)
        ∧ n_cats = 6 ∧ default_cols.length = 7
        ∧ n_cats ≤ default_cols.length) :=
  ⟨by decide, by decide, by decide,
    palette_covers_classes [[(1 : ℚ) / 6, 1 / 6, 1 / 6, 1 / 6, 1 / 6, 1 / 6]]
      default_cols 6 (by decide) (by decide) (by decide)⟩

/-- C6: the color `plot_ax` computes at each grid point is exactly the
probability-weighted sum, over the classes, of the first `num_classes`
palette colors — the convex combination `Σ_c prob_c · rgb_c` with the
weights equal to the per-class probabilities, not any hard assignment. -/
theorem plot_colors_convex_blend (meshPred : List (List ℚ)) (cols : List String)
    (nc : Nat) (hrows : ∀ row ∈ meshPred, row.length = nc)
    (hne : meshPred ≠ []) (hnc : 0 < nc) (hcols : nc ≤ cols.length) :
    plot_ax_cols meshPred cols
      = some (meshPred.map fun row => blendSpec row ((cols.take nc).map to_rgb)) := by
  obtain ⟨hd, tl, rfl⟩ := List.exists_cons_of_ne_nil hne
  have hhd : hd.length = nc := hrows hd (List.mem_cons_self hd tl)
  have htake : (cols.take nc).length = nc := by
    rw [List.length_take]
    omega
  obtain ⟨c0, cs, rfl⟩ : ∃ c0 cs, cols = c0 :: cs := by
    cases cols with
    | nil => simp at hcols; omega
    | cons c0 cs => exact ⟨c0, cs, rfl⟩
  obtain ⟨nc', rfl⟩ : ∃ nc', nc = nc' + 1 := ⟨nc - 1, by omega⟩
  have hheadlen : ((((c0 :: cs).take (nc' + 1)).map to_rgb).headD []).length = 3 := by
    rw [List.take_succ_cons, List.map_cons, List.headD_cons, to_rgb_length]
  simp only [plot_ax_cols, matmulChecked, List.headD_cons, hhd]
  rw [if_pos]
  · rw [hheadlen]
    congr 1
    apply List.map_congr_left
    intro row hrow
    exact matmul_row_blend row _
      (by rw [List.length_map, htake, hrows row hrow])
      (fun v hv => by
        rcases List.mem_map.mp hv with ⟨cname, _, rfl⟩
        exact to_rgb_length cname)
  · rw [List.all_eq_true]
    intro row hr
    have hrow := hrows row hr
    simp only [List.length_map, htake, hrow, beq_self_eq_true]

/-- Witness for C6 at concrete data: one probability row over two classes
with the default palette; the blend of half red and half blue. -/
theorem plot_colors_convex_blend_witness :
    (∀ row ∈ [[(1 : ℚ) / 2, 1 / 2]], row.length = 2)
      ∧ ([[(1 : ℚ) / 2, 1 / 2]] ≠ ([] : List (List ℚ)))
      ∧ 0 < 2 ∧ 2 ≤ default_cols.length
      ∧ plot_ax_cols [[(1 : ℚ) / 2, 1 / 2]] default_cols
          = some ([[(1 : ℚ) / 2, 1 / 2]].map fun row =>
              blendSpec row ((default_cols.take 2).map to_rgb)) :=
  ⟨by decide, by decide, by decide, by decide,
    plot_colors_convex_blend [[(1 : ℚ) / 2, 1 / 2]] default_cols 2
      (by decide) (by decide) (by decide) (by decide)⟩

end Circles
